import Mathlib

/-!
# Verification of the LoFTR coarse-matching core

A shallow embedding of `src/model/loftr_src/loftr/utils/coarse_matching.py`
(`CoarseMatching`) together with proofs of the specified properties.

* The match-extraction pipeline (`get_coarse_match`, border masking, construction)
  is embedded over `ℚ` with `Nat` indices, so every step is executable and decidable.
* The dual-softmax confidence construction (`forward`) is embedded over `ℝ`
  with `Real.exp`, since softmax is a transcendental operation.

Tensors are modelled as total functions from indices; only indices below the
advertised bounds are meaningful, exactly as in the row-major flattened layout
of the source.
-/

namespace CoarseMatch

/-! ## Configuration and construction (`CoarseMatching.__init__`) -/

/-- The two values accepted for `config['match_type']` (source lines 39–52). -/
inductive MatchType where
  | dual_softmax
  | sinkhorn
  deriving DecidableEq

/-- The configuration dictionary entries read by `CoarseMatching.__init__`. -/
structure Config where
  thr : ℚ
  border_rm : Int
  train_coarse_percent : ℚ
  train_pad_num_gt_min : Nat
  match_type : MatchType
  dsmax_temperature : ℚ
  skh_init_bin_score : ℚ
  skh_iters : Nat
  skh_prefilter : Bool

/-- The state a successfully constructed matcher carries. -/
structure CoarseMatching where
  thr : ℚ
  border_rm : Int
  train_coarse_percent : ℚ
  train_pad_num_gt_min : Nat
  temperature : ℚ

/-- Embedding of `CoarseMatching.__init__` (source lines 26–52).
`self.border_rm` is assigned from `config['border_rm']` and immediately
reassigned to `0` (lines 31–32), so the constructed matcher always carries
border margin `0`.  In `'sinkhorn'` mode the constructor runs
`from .superglue import log_optimal_transport`; `superglue.py` is not a file of
this repository, so the import fails and the constructor raises
`ImportError("download superglue.py first!")` (lines 42–45).  Consequently only
`'dual_softmax'` constructions succeed, and every constructed matcher has a
temperature. -/
def CoarseMatching.init (config : Config) : Except String CoarseMatching :=
  let thr := config.thr
  let border_rm := config.border_rm
  let border_rm := (0 : Int)
  let tcp := config.train_coarse_percent
  let tpn := config.train_pad_num_gt_min
  match config.match_type with
  | .dual_softmax =>
      .ok { thr := thr, border_rm := border_rm, train_coarse_percent := tcp,
            train_pad_num_gt_min := tpn, temperature := config.dsmax_temperature }
  | .sinkhorn => .error "download superglue.py first!"

/-! ## Border masking (`mask_border`, `mask_border_with_padding`)

The boolean candidate mask reshaped to `[N, H0c, W0c, H1c, W1c]` is modelled as
a function of the five indices. -/

/-- A 5-dimensional boolean mask `[N, H0c, W0c, H1c, W1c]`. -/
abbrev Mask5 := Nat → Nat → Nat → Nat → Nat → Bool

/-- Start index of the Python slice `x[i:]` over an axis of length `len`:
a negative `i` counts from the end, clamped at `0`. -/
def sliceStart (len : Nat) (i : Int) : Nat :=
  if 0 ≤ i then i.toNat else ((len : Int) + i).toNat

/-- Embedding of `CoarseMatching.mask_border` (source lines 71–88): writes `v`
into a band of width `b` along all four edges of both grids, returning the
mask unchanged when `b ≤ 0`. -/
def mask_border (h0c w0c h1c w1c : Nat) (b : Int) (v : Bool) (m : Mask5) : Mask5 :=
  if b ≤ 0 then m
  else fun bi i0 j0 i1 j1 =>
    if i0 < b.toNat ∨ j0 < b.toNat ∨ i1 < b.toNat ∨ j1 < b.toNat ∨
        sliceStart h0c (-b) ≤ i0 ∨ sliceStart w0c (-b) ≤ j0 ∨
        sliceStart h1c (-b) ≤ i1 ∨ sliceStart w1c (-b) ≤ j1
    then v else m bi i0 j0 i1 j1

/-- Number of indices `i < n` with `p i = true` (a row/column sum of a boolean
mask). -/
def countTrue (n : Nat) (p : Nat → Bool) : Nat :=
  ((List.range n).filter p).length

/-- Maximum of a list of naturals, `0` on the empty list. -/
def natMax (l : List Nat) : Nat := l.foldr max 0

/-- `p_m.sum(1).max(-1)[0]`: the maximal per-column count of valid rows of a
padded 2-D mask of physical size `h × w` — the valid height proxy. -/
def validHeight (h w : Nat) (pm : Nat → Nat → Bool) : Nat :=
  natMax ((List.range w).map fun j => countTrue h fun i => pm i j)

/-- `p_m.sum(-1).max(-1)[0]`: the maximal per-row count of valid columns — the
valid width proxy. -/
def validWidth (h w : Nat) (pm : Nat → Nat → Bool) : Nat :=
  natMax ((List.range h).map fun i => countTrue w fun j => pm i j)

/-- Embedding of `CoarseMatching.mask_border_with_padding` (source lines
54–69): near edges use the fixed margin `bd` from the physical edge; far edges
use each sample's computed valid extent minus `bd` (with Python slice
semantics for a negative start).  Returns the mask unchanged when `bd ≤ 0`. -/
def mask_border_with_padding (h0c w0c h1c w1c : Nat) (bd : Int) (v : Bool) (m : Mask5)
    (p_m0 p_m1 : Nat → Nat → Nat → Bool) : Mask5 :=
  if bd ≤ 0 then m
  else fun bi i0 j0 i1 j1 =>
    let h0 := validHeight h0c w0c (p_m0 bi)
    let w0 := validWidth h0c w0c (p_m0 bi)
    let h1 := validHeight h1c w1c (p_m1 bi)
    let w1 := validWidth h1c w1c (p_m1 bi)
    if i0 < bd.toNat ∨ j0 < bd.toNat ∨ i1 < bd.toNat ∨ j1 < bd.toNat ∨
        sliceStart h0c ((h0 : Int) - bd) ≤ i0 ∨ sliceStart w0c ((w0 : Int) - bd) ≤ j0 ∨
        sliceStart h1c ((h1 : Int) - bd) ≤ i1 ∨ sliceStart w1c ((w1 : Int) - bd) ≤ j1
    then v else m bi i0 j0 i1 j1

/-! ## Match extraction (`CoarseMatching.get_coarse_match`) -/

/-- The fields of the `data` dict read by `get_coarse_match`:
grid sizes, the confidence matrix, the optional padded masks (`'mask0'`/`'mask1'`),
the training-context marker (`'dataset_name' in data`), the original image-0
height `data['hw0_i'][0]`, and the optional per-sample scale corrections. -/
structure MatchData where
  N : Nat
  h0c : Nat
  w0c : Nat
  h1c : Nat
  w1c : Nat
  hw0i_h : ℚ
  conf_matrix : Nat → Nat → Nat → ℚ
  padded_masks : Option ((Nat → Nat → Nat → Bool) × (Nat → Nat → Nat → Bool))
  dataset_name : Bool
  scale0 : Option (Nat → ℚ)
  scale1 : Option (Nat → ℚ)

/-- `L = H0c·W0c`, the flattened image-0 cell count. -/
def MatchData.L (d : MatchData) : Nat := d.h0c * d.w0c

/-- `S = H1c·W1c`, the flattened image-1 cell count. -/
def MatchData.S (d : MatchData) : Nat := d.h1c * d.w1c

/-- Step 1a, `mask = conf_matrix > self.thr` (source line 161). -/
def thresholdMask (thr : ℚ) (d : MatchData) : Nat → Nat → Nat → Bool :=
  fun b l s => decide (thr < d.conf_matrix b l s)

/-- Step 1b (source lines 163–173): reshape the flat mask to the 5-D grid,
apply the fixed or padding-aware border mask with value `False` according to
whether `'mask0'` is in `data`, and flatten back. -/
def borderStep (border_rm : Int) (d : MatchData) (mk : Nat → Nat → Nat → Bool) :
    Nat → Nat → Nat → Bool :=
  let m5 : Mask5 := fun b i0 j0 i1 j1 => mk b (i0 * d.w0c + j0) (i1 * d.w1c + j1)
  let m5b : Mask5 :=
    match d.padded_masks with
    | none => mask_border d.h0c d.w0c d.h1c d.w1c border_rm false m5
    | some pms => mask_border_with_padding d.h0c d.w0c d.h1c d.w1c border_rm false m5
        pms.1 pms.2
  fun b l s => m5b b (l / d.w0c) (l % d.w0c) (s / d.w1c) (s % d.w1c)

/-- Binary maximum on `ℚ`, written with an executable comparison. -/
def rmax (a b : ℚ) : ℚ := if a ≤ b then b else a

/-- Maximum of a rational list: first element seeded into a left fold of the
maximum (the value `torch.max` returns on a non-empty axis); `0` on the empty
list (`torch.max` on an empty axis is an error, and no claim evaluates it
there). -/
def qmax : List ℚ → ℚ
  | [] => 0
  | a :: rest => rest.foldl rmax a

/-- `conf_matrix.max(dim=2)` at `(b, l)`: the row maximum. -/
def rowMax (d : MatchData) (b l : Nat) : ℚ :=
  qmax ((List.range d.S).map fun s => d.conf_matrix b l s)

/-- `conf_matrix.max(dim=1)` at `(b, s)`: the column maximum. -/
def colMax (d : MatchData) (b s : Nat) : ℚ :=
  qmax ((List.range d.L).map fun l => d.conf_matrix b l s)

/-- Step 2 (source lines 176–178): the bordered threshold mask intersected
with the mutual-nearest conditions `conf == rowmax` and `conf == colmax`. -/
def mutualMask (thr : ℚ) (border_rm : Int) (d : MatchData) : Nat → Nat → Nat → Bool :=
  fun b l s =>
    borderStep border_rm d (thresholdMask thr d) b l s &&
    decide (d.conf_matrix b l s = rowMax d b l) &&
    decide (d.conf_matrix b l s = colMax d b s)

/-- `ck` (source line 183): sample `b`'s mutual mask has no `True` entry. -/
def ckFlag (thr : ℚ) (border_rm : Int) (d : MatchData) (b : Nat) : Bool :=
  (List.range d.L).all fun l =>
    (List.range d.S).all fun s => !(mutualMask thr border_rm d b l s)

/-- Step 3a (source lines 182–184): in a training context (`'dataset_name' in
data`) the all-`False` samples get cell `(0,0)` forced to `True`. -/
def finalMask (thr : ℚ) (border_rm : Int) (d : MatchData) : Nat → Nat → Nat → Bool :=
  fun b l s =>
    mutualMask thr border_rm d b l s ||
    (d.dataset_name && ckFlag thr border_rm d b && decide (l = 0) && decide (s = 0))

/-- Index of the first `true` of `p` on `[0, n)`, scanning left to right —
the index `torch.max` reports for a boolean row containing a `True`. -/
def firstTrue (p : Nat → Bool) : Nat → Option Nat
  | 0 => none
  | n + 1 =>
    match firstTrue p n with
    | some k => some k
    | none => if p n then some n else none

/-- Step 3b (source lines 185–188) restricted to sample `b`: rows holding a
`True` produce `(b, l, argmax of the row, conf_matrix[b, l, j])`. -/
def matchesFor (thr : ℚ) (border_rm : Int) (d : MatchData) (b : Nat) :
    List (Nat × Nat × Nat × ℚ) :=
  (List.range d.L).filterMap fun l =>
    (firstTrue (fun s => finalMask thr border_rm d b l s) d.S).map fun j =>
      (b, l, j, d.conf_matrix b l j)

/-- Step 3b over the whole batch: `torch.where(mask_v)` scans samples in
order, rows in order within a sample. -/
def coarseMatches (thr : ℚ) (border_rm : Int) (d : MatchData) :
    List (Nat × Nat × Nat × ℚ) :=
  (List.range d.N).flatMap (matchesFor thr border_rm d)

/-- Step 4 (source lines 193–195): the base scale `hw0_i[0] / hw0_c[0]`,
multiplied by the sample's own `scale0` entry when `'scale0' in data`. -/
def effScale0 (d : MatchData) (b : Nat) : ℚ :=
  match d.scale0 with
  | some sc => d.hw0i_h / (d.h0c : ℚ) * sc b
  | none => d.hw0i_h / (d.h0c : ℚ)

/-- The image-1 effective scale: the same base ratio `hw0_i[0] / hw0_c[0]`,
multiplied by the sample's `scale1` entry when `'scale1' in data`. -/
def effScale1 (d : MatchData) (b : Nat) : ℚ :=
  match d.scale1 with
  | some sc => d.hw0i_h / (d.h0c : ℚ) * sc b
  | none => d.hw0i_h / (d.h0c : ℚ)

/-- Steps 3–4 assembled (source lines 185–210): each match with its
full-resolution keypoints `mkpts0_c = (i % w0c, i // w0c) * scale0` and
`mkpts1_c = (j % w1c, j // w1c) * scale1`. -/
def matchRecords (thr : ℚ) (border_rm : Int) (d : MatchData) :
    List (Nat × Nat × Nat × ℚ × (ℚ × ℚ) × (ℚ × ℚ)) :=
  (coarseMatches thr border_rm d).map fun m =>
    (m.1, m.2.1, m.2.2.1, m.2.2.2,
      (((m.2.1 % d.w0c : Nat) : ℚ) * effScale0 d m.1,
       ((m.2.1 / d.w0c : Nat) : ℚ) * effScale0 d m.1),
      (((m.2.2.1 % d.w1c : Nat) : ℚ) * effScale1 d m.1,
       ((m.2.2.1 / d.w1c : Nat) : ℚ) * effScale1 d m.1))

/-- `get_coarse_match` of a constructed matcher: extraction with the matcher's
threshold and (overridden-to-`0`) border margin. -/
def CoarseMatching.get_coarse_match (self : CoarseMatching) (d : MatchData) :
    List (Nat × Nat × Nat × ℚ × (ℚ × ℚ) × (ℚ × ℚ)) :=
  matchRecords self.thr self.border_rm d

/-! ## The forward pass (`CoarseMatching.forward`, dual-softmax path)

Feature batches are `Fin`-indexed real tensors; `softmax` uses `Real.exp`.
The source's dispatch on the matching mode is commented out (line 117), so
`forward` unconditionally runs the dual-softmax computation. -/

/-- `F.softmax(x, dim=1)`: normalization over the image-0 (row/`L`) axis. -/
noncomputable def softmaxDim1 {N L S : Nat} (x : Fin N → Fin L → Fin S → ℝ)
    (b : Fin N) (l : Fin L) (s : Fin S) : ℝ :=
  Real.exp (x b l s) / ∑ i : Fin L, Real.exp (x b i s)

/-- `F.softmax(x, dim=2)`: normalization over the image-1 (column/`S`) axis. -/
noncomputable def softmaxDim2 {N L S : Nat} (x : Fin N → Fin L → Fin S → ℝ)
    (b : Fin N) (l : Fin L) (s : Fin S) : ℝ :=
  Real.exp (x b l s) / ∑ j : Fin S, Real.exp (x b l j)

/-- `conf_matrix = F.softmax(sim_matrix, 1) * F.softmax(sim_matrix, 2)`
(source line 125). -/
noncomputable def dualSoftmax {N L S : Nat} (x : Fin N → Fin L → Fin S → ℝ)
    (b : Fin N) (l : Fin L) (s : Fin S) : ℝ :=
  softmaxDim1 x b l s * softmaxDim2 x b l s

/-- Source lines 113–119: each feature divided by `C ** 0.5`, then
`einsum("nlc,nsc->nls")`, then division by the temperature. -/
noncomputable def simMatrix {N L S C : Nat} (feat_c0 : Fin N → Fin L → Fin C → ℝ)
    (feat_c1 : Fin N → Fin S → Fin C → ℝ) (temperature : ℝ)
    (b : Fin N) (l : Fin L) (s : Fin S) : ℝ :=
  (∑ c : Fin C, (feat_c0 b l c / Real.sqrt C) * (feat_c1 b s c / Real.sqrt C)) /
    temperature

/-- Source lines 123–124: `sim_matrix.masked_fill_(~(mask_c0[..., None] *
mask_c1[:, None]), -INF)` with `INF = 1e9`. -/
noncomputable def maskedFill {N L S : Nat} (sim : Fin N → Fin L → Fin S → ℝ)
    (m0 : Fin N → Fin L → Bool) (m1 : Fin N → Fin S → Bool)
    (b : Fin N) (l : Fin L) (s : Fin S) : ℝ :=
  if !(m0 b l && m1 b s) then -(1000000000 : ℝ) else sim b l s

/-- Embedding of the confidence computation of `CoarseMatching.forward`
(source lines 110–127).  The mask branch is `if mask_c0 is not None`, whose
body asserts that `mask_c1` is present too: supplying `mask_c0` without
`mask_c1` raises `AssertionError`, while a lone `mask_c1` is silently ignored
and the unmasked similarity is used.  Returns the `conf_matrix` stored into
`data`. -/
noncomputable def forwardConf {N L S C : Nat} (feat_c0 : Fin N → Fin L → Fin C → ℝ)
    (feat_c1 : Fin N → Fin S → Fin C → ℝ) (temperature : ℝ)
    (mask_c0 : Option (Fin N → Fin L → Bool)) (mask_c1 : Option (Fin N → Fin S → Bool)) :
    Except String (Fin N → Fin L → Fin S → ℝ) :=
  let sim := simMatrix feat_c0 feat_c1 temperature
  match mask_c0, mask_c1 with
  | some m0, some m1 => .ok (dualSoftmax (maskedFill sim m0 m1))
  | some _, none => .error "AssertionError"
  | none, _ => .ok (dualSoftmax sim)

/-! Definitions written from the specification's words (§4.1), used to state
the refinement claim about the dual-softmax construction. -/

/-- Modelled from the spec: "the batched matrix product of the two feature
batches each scaled by 1/√C, divided by the configured temperature". -/
noncomputable def specSimilarity {N L S C : Nat} (feat_c0 : Fin N → Fin L → Fin C → ℝ)
    (feat_c1 : Fin N → Fin S → Fin C → ℝ) (temperature : ℝ)
    (b : Fin N) (l : Fin L) (s : Fin S) : ℝ :=
  (∑ c : Fin C, (feat_c0 b l c * (Real.sqrt C)⁻¹) * (feat_c1 b s c * (Real.sqrt C)⁻¹)) /
    temperature

/-- Modelled from the spec: the similarity "set to the large negative sentinel
-1e9 at every entry where either side's cell is invalid". -/
noncomputable def specMaskedSimilarity {N L S C : Nat} (feat_c0 : Fin N → Fin L → Fin C → ℝ)
    (feat_c1 : Fin N → Fin S → Fin C → ℝ) (temperature : ℝ)
    (m0 : Fin N → Fin L → Bool) (m1 : Fin N → Fin S → Bool)
    (b : Fin N) (l : Fin L) (s : Fin S) : ℝ :=
  if m0 b l = false ∨ m1 b s = false then -(1000000000 : ℝ)
  else specSimilarity feat_c0 feat_c1 temperature b l s

/-- Modelled from the spec: the confidence matrix of the unmasked case,
"softmax(sim, over the image0 axis) elementwise-multiplied by softmax(sim,
over the image1 axis)". -/
noncomputable def specDualSoftmaxConfNoMask {N L S C : Nat}
    (feat_c0 : Fin N → Fin L → Fin C → ℝ) (feat_c1 : Fin N → Fin S → Fin C → ℝ)
    (temperature : ℝ) (b : Fin N) (l : Fin L) (s : Fin S) : ℝ :=
  softmaxDim1 (specSimilarity feat_c0 feat_c1 temperature) b l s *
    softmaxDim2 (specSimilarity feat_c0 feat_c1 temperature) b l s

/-- Modelled from the spec: "ConfidenceMatrix = softmax(sim, over the image0
axis) elementwise-multiplied by softmax(sim, over the image1 axis)". -/
noncomputable def specDualSoftmaxConf {N L S C : Nat} (feat_c0 : Fin N → Fin L → Fin C → ℝ)
    (feat_c1 : Fin N → Fin S → Fin C → ℝ) (temperature : ℝ)
    (m0 : Fin N → Fin L → Bool) (m1 : Fin N → Fin S → Bool)
    (b : Fin N) (l : Fin L) (s : Fin S) : ℝ :=
  softmaxDim1 (specMaskedSimilarity feat_c0 feat_c1 temperature m0 m1) b l s *
    softmaxDim2 (specMaskedSimilarity feat_c0 feat_c1 temperature m0 m1) b l s

/-! ## Concrete example inputs

Small instances used to instantiate the theorems below on explicit data. -/

/-- A 1×1 feature batch, identically zero. -/
noncomputable def c3Feat0 : Fin 1 → Fin 1 → Fin 1 → ℝ := fun _ _ _ => 0

/-- A second 1×1 feature batch, identically zero. -/
noncomputable def c3Feat1 : Fin 1 → Fin 1 → Fin 1 → ℝ := fun _ _ _ => 0

/-- An all-valid mask for image 1. -/
def c3Mask1 : Fin 1 → Fin 1 → Bool := fun _ _ => true

/-- Zero features for the C6 witness. -/
noncomputable def c6Feat0 : Fin 1 → Fin 1 → Fin 1 → ℝ := fun _ _ _ => 0

/-- Zero features for the C6 witness, image-1 side. -/
noncomputable def c6Feat1 : Fin 1 → Fin 1 → Fin 1 → ℝ := fun _ _ _ => 0

/-- The confidence matrix `forwardConf` produces on the zero features with no
masks. -/
noncomputable def c6Conf : Fin 1 → Fin 1 → Fin 1 → ℝ :=
  dualSoftmax (simMatrix c6Feat0 c6Feat1 1)

/-- A 1-sample batch on a 1×1 / 1×2 grid pair whose cell `(0,0)` dominates
its row and column. -/
def c2Data : MatchData :=
  { N := 1, h0c := 1, w0c := 1, h1c := 1, w1c := 2, hw0i_h := mkRat 8 1,
    conf_matrix := fun _ _ s => if s = 0 then mkRat 9 10 else mkRat 1 10,
    padded_masks := none, dataset_name := false, scale0 := none, scale1 := none }

/-- A 1-sample batch on a 1×1 / 1×2 grid pair whose row is a perfect tie:
both entries equal `1/2`. -/
def c2TieData : MatchData :=
  { N := 1, h0c := 1, w0c := 1, h1c := 1, w1c := 2, hw0i_h := mkRat 8 1,
    conf_matrix := fun _ _ _ => mkRat 1 2,
    padded_masks := none, dataset_name := false, scale0 := none, scale1 := none }

/-- A training-context sample (`dataset_name` present) in which no entry
clears the threshold `1/2`. -/
def c5Data : MatchData :=
  { N := 1, h0c := 1, w0c := 1, h1c := 1, w1c := 2, hw0i_h := mkRat 8 1,
    conf_matrix := fun _ _ _ => mkRat 1 10,
    padded_masks := none, dataset_name := true, scale0 := none, scale1 := none }

/-- The same degenerate sample in an inference-only context. -/
def c5DataInfer : MatchData :=
  { N := 1, h0c := 1, w0c := 1, h1c := 1, w1c := 2, hw0i_h := mkRat 8 1,
    conf_matrix := fun _ _ _ => mkRat 1 10,
    padded_masks := none, dataset_name := false, scale0 := none, scale1 := none }

/-- A concrete 5-D mask marking only grid row `0` of image 0. -/
def c7Mask : Mask5 := fun _ i0 _ _ _ => decide (i0 = 0)

/-- A batch on a 2×2 / 2×2 grid pair with a per-sample image-0 scale factor,
whose cell pair `(1, 2)` dominates. -/
def c8Data : MatchData :=
  { N := 1, h0c := 2, w0c := 2, h1c := 2, w1c := 2, hw0i_h := mkRat 16 1,
    conf_matrix := fun _ l s => if l = 1 && s = 2 then mkRat 9 10 else mkRat 1 10,
    padded_masks := none, dataset_name := false,
    scale0 := some fun _ => mkRat 3 1, scale1 := none }

/-- A configuration requesting a nonzero border margin. -/
def c9Config : Config :=
  { thr := mkRat 1 5, border_rm := 7, train_coarse_percent := mkRat 1 2,
    train_pad_num_gt_min := 20, match_type := .dual_softmax,
    dsmax_temperature := mkRat 1 10, skh_init_bin_score := 1, skh_iters := 3,
    skh_prefilter := false }

/-- The matcher `CoarseMatching.init c9Config` constructs. -/
def c9Matcher : CoarseMatching :=
  { thr := mkRat 1 5, border_rm := 0, train_coarse_percent := mkRat 1 2,
    train_pad_num_gt_min := 20, temperature := mkRat 1 10 }

/-- Data for exercising the border step of the constructed matcher. -/
def c9Data : MatchData :=
  { N := 1, h0c := 1, w0c := 1, h1c := 1, w1c := 1, hw0i_h := mkRat 8 1,
    conf_matrix := fun _ _ _ => mkRat 1 2,
    padded_masks := none, dataset_name := false, scale0 := none, scale1 := none }

/-- A 1-sample batch whose single row holds a two-way tie, so the mutual-max
mask carries two `True` columns. -/
def c10Data : MatchData :=
  { N := 1, h0c := 1, w0c := 1, h1c := 1, w1c := 2, hw0i_h := mkRat 8 1,
    conf_matrix := fun _ _ _ => mkRat 1 2,
    padded_masks := none, dataset_name := false, scale0 := none, scale1 := none }

/-! ## Helper lemmas -/

theorem div_mul_add_mod (l w : Nat) : l / w * w + l % w = l := by
  rw [Nat.mul_comm]
  exact Nat.div_add_mod l w

theorem borderStep_id_of_nonpos (border_rm : Int) (hb : border_rm ≤ 0) (d : MatchData)
    (mk : Nat → Nat → Nat → Bool) : borderStep border_rm d mk = mk := by
  funext b l s
  have h0 : l / d.w0c * d.w0c + l % d.w0c = l := div_mul_add_mod l d.w0c
  have h1 : s / d.w1c * d.w1c + s % d.w1c = s := div_mul_add_mod s d.w1c
  cases hpm : d.padded_masks with
  | none => simp [borderStep, mask_border, hb, hpm, h0, h1]
  | some pms => simp [borderStep, mask_border_with_padding, hb, hpm, h0, h1]

theorem borderStep_le (border_rm : Int) (d : MatchData) (mk : Nat → Nat → Nat → Bool)
    (b l s : Nat) (h : borderStep border_rm d mk b l s = true) : mk b l s = true := by
  have h0 : l / d.w0c * d.w0c + l % d.w0c = l := div_mul_add_mod l d.w0c
  have h1 : s / d.w1c * d.w1c + s % d.w1c = s := div_mul_add_mod s d.w1c
  by_cases hb : border_rm ≤ 0
  · rw [borderStep_id_of_nonpos border_rm hb d mk] at h
    exact h
  · unfold borderStep at h
    cases hpm : d.padded_masks <;> rw [hpm] at h <;>
      simp only [mask_border, mask_border_with_padding, if_neg hb] at h <;>
      · split at h
        · exact absurd h (by simp)
        · rw [h0, h1] at h; exact h

/-! ## C7, C9, C4, C3, C1: masking, construction and the forward formula -/

/-- C7: with border margin ≤ 0 (in particular margin 0), both the fixed-size
and the padding-aware border-masking variants return the input mask
unchanged — identical to applying no masking at all. -/
theorem border_masking_noop_of_nonpos (h0c w0c h1c w1c : Nat) (b : Int) (hb : b ≤ 0)
    (v : Bool) (m : Mask5) (p0 p1 : Nat → Nat → Nat → Bool) :
    mask_border h0c w0c h1c w1c b v m = m ∧
      mask_border_with_padding h0c w0c h1c w1c b v m p0 p1 = m := by
  constructor
  · simp [mask_border, hb]
  · simp [mask_border_with_padding, hb]

/-- Witness for C7 at margin `0` on a concrete mask. -/
theorem border_masking_noop_witness :
    mask_border 2 2 2 2 0 false c7Mask = c7Mask ∧
      mask_border_with_padding 2 2 2 2 0 false c7Mask
        (fun _ _ _ => true) (fun _ _ _ => true) = c7Mask :=
  border_masking_noop_of_nonpos 2 2 2 2 0 (by decide) false c7Mask
    (fun _ _ _ => true) (fun _ _ _ => true)

/-- C9: every accepted configuration yields a matcher whose effective border
margin is `0` (the configured `border_rm` is overridden), so the border step
of every subsequent call removes no candidate pair. -/
theorem init_border_rm_zero (config : Config) (self : CoarseMatching)
    (h : CoarseMatching.init config = .ok self) :
    self.border_rm = 0 ∧
      ∀ (d : MatchData) (mk : Nat → Nat → Nat → Bool),
        borderStep self.border_rm d mk = mk := by
  cases hmt : config.match_type with
  | dual_softmax =>
      simp only [CoarseMatching.init, hmt, Except.ok.injEq] at h
      constructor
      · rw [← h]
      · intro d mk
        rw [← h]
        exact borderStep_id_of_nonpos 0 le_rfl d mk
  | sinkhorn => simp [CoarseMatching.init, hmt] at h

/-- Witness for C9: a configuration requesting margin `7` still constructs a
matcher with margin `0` whose border step is the identity. -/
theorem init_border_rm_zero_witness :
    c9Matcher.border_rm = 0 ∧
      borderStep c9Matcher.border_rm c9Data (thresholdMask (mkRat 1 5) c9Data) =
        thresholdMask (mkRat 1 5) c9Data :=
  ⟨(init_border_rm_zero c9Config c9Matcher rfl).1,
   (init_border_rm_zero c9Config c9Matcher rfl).2 c9Data
     (thresholdMask (mkRat 1 5) c9Data)⟩

/-- C4: constructing the matcher in Sinkhorn mode does not produce a Sinkhorn
confidence matrix — the constructor already fails, because the
`from .superglue import log_optimal_transport` dependency is not part of this
repository (`ImportError("download superglue.py first!")`); and the forward
pass's mode dispatch is commented out, so no code path appends a bin
row/column or runs Sinkhorn iterations. -/
theorem sinkhorn_init_fails (thr : ℚ) (brm : Int) (tcp : ℚ) (tpn : Nat)
    (temp bin : ℚ) (iters : Nat) (pf : Bool) :
    CoarseMatching.init
      { thr := thr, border_rm := brm, train_coarse_percent := tcp,
        train_pad_num_gt_min := tpn, match_type := .sinkhorn,
        dsmax_temperature := temp, skh_init_bin_score := bin, skh_iters := iters,
        skh_prefilter := pf } = .error "download superglue.py first!" := rfl

/-- C3 counterexample: supplying only `mask_c1` (image 1's mask) does not
fail — the forward pass succeeds and silently ignores the lone mask,
contradicting the claim that any single-mask call fails. -/
theorem lone_mask1_no_failure :
    forwardConf c3Feat0 c3Feat1 1 none (some c3Mask1) =
      .ok (dualSoftmax (simMatrix c3Feat0 c3Feat1 1)) := rfl

/-- C3 (amended): supplying `mask_c0` without `mask_c1` fails with an
assertion error and produces no confidence matrix; supplying only `mask_c1`
does not fail — the mask is ignored and the unmasked computation is used. -/
theorem single_mask_precondition {N L S C : Nat} (feat_c0 : Fin N → Fin L → Fin C → ℝ)
    (feat_c1 : Fin N → Fin S → Fin C → ℝ) (temperature : ℝ)
    (m0 : Fin N → Fin L → Bool) (m1 : Fin N → Fin S → Bool) :
    forwardConf feat_c0 feat_c1 temperature (some m0) none = .error "AssertionError" ∧
      forwardConf feat_c0 feat_c1 temperature none (some m1) =
        forwardConf feat_c0 feat_c1 temperature none none :=
  ⟨rfl, rfl⟩

theorem simMatrix_eq_spec {N L S C : Nat} (feat_c0 : Fin N → Fin L → Fin C → ℝ)
    (feat_c1 : Fin N → Fin S → Fin C → ℝ) (temperature : ℝ) :
    simMatrix feat_c0 feat_c1 temperature =
      specSimilarity feat_c0 feat_c1 temperature := by
  funext b l s
  unfold simMatrix specSimilarity
  simp [div_eq_mul_inv]

theorem maskedFill_eq_spec {N L S C : Nat} (feat_c0 : Fin N → Fin L → Fin C → ℝ)
    (feat_c1 : Fin N → Fin S → Fin C → ℝ) (temperature : ℝ)
    (m0 : Fin N → Fin L → Bool) (m1 : Fin N → Fin S → Bool) :
    maskedFill (simMatrix feat_c0 feat_c1 temperature) m0 m1 =
      specMaskedSimilarity feat_c0 feat_c1 temperature m0 m1 := by
  funext b l s
  unfold maskedFill specMaskedSimilarity
  rw [simMatrix_eq_spec]
  cases h0 : m0 b l <;> cases h1 : m1 b s <;> simp [h0, h1]

/-- C1: in dual-softmax mode the forward pass produces exactly the
specification's confidence matrix: softmax over the image-0 axis times
softmax over the image-1 axis of the similarity (features scaled by `1/√C`,
divided by the temperature, set to `-1e9` where either side is invalid),
when both validity masks are supplied. -/
theorem dual_softmax_forward_conf {N L S C : Nat} (feat_c0 : Fin N → Fin L → Fin C → ℝ)
    (feat_c1 : Fin N → Fin S → Fin C → ℝ) (temperature : ℝ)
    (m0 : Fin N → Fin L → Bool) (m1 : Fin N → Fin S → Bool) :
    forwardConf feat_c0 feat_c1 temperature (some m0) (some m1) =
      .ok (specDualSoftmaxConf feat_c0 feat_c1 temperature m0 m1) ∧
    forwardConf feat_c0 feat_c1 temperature none none =
      .ok (specDualSoftmaxConfNoMask feat_c0 feat_c1 temperature) := by
  constructor
  · show Except.ok
        (dualSoftmax (maskedFill (simMatrix feat_c0 feat_c1 temperature) m0 m1)) = _
    rw [maskedFill_eq_spec]
    rfl
  · show Except.ok (dualSoftmax (simMatrix feat_c0 feat_c1 temperature)) = _
    rw [simMatrix_eq_spec]
    rfl

theorem dualSoftmax_mem_unit {N L S : Nat} (x : Fin N → Fin L → Fin S → ℝ)
    (b : Fin N) (l : Fin L) (s : Fin S) :
    0 ≤ dualSoftmax x b l s ∧ dualSoftmax x b l s ≤ 1 := by
  haveI : Nonempty (Fin L) := ⟨l⟩
  haveI : Nonempty (Fin S) := ⟨s⟩
  have hpos1 : (0 : ℝ) < ∑ i : Fin L, Real.exp (x b i s) :=
    Finset.sum_pos (fun i _ => Real.exp_pos _) Finset.univ_nonempty
  have hpos2 : (0 : ℝ) < ∑ j : Fin S, Real.exp (x b l j) :=
    Finset.sum_pos (fun j _ => Real.exp_pos _) Finset.univ_nonempty
  have hle1 : Real.exp (x b l s) ≤ ∑ i : Fin L, Real.exp (x b i s) :=
    Finset.single_le_sum (fun i _ => (Real.exp_pos (x b i s)).le) (Finset.mem_univ l)
  have hle2 : Real.exp (x b l s) ≤ ∑ j : Fin S, Real.exp (x b l j) :=
    Finset.single_le_sum (fun j _ => (Real.exp_pos (x b l j)).le) (Finset.mem_univ s)
  have q1nn : 0 ≤ softmaxDim1 x b l s :=
    div_nonneg (Real.exp_pos (x b l s)).le hpos1.le
  have q2nn : 0 ≤ softmaxDim2 x b l s :=
    div_nonneg (Real.exp_pos (x b l s)).le hpos2.le
  have q1le : softmaxDim1 x b l s ≤ 1 := by
    unfold softmaxDim1
    rw [div_le_one hpos1]
    exact hle1
  have q2le : softmaxDim2 x b l s ≤ 1 := by
    unfold softmaxDim2
    rw [div_le_one hpos2]
    exact hle2
  exact ⟨mul_nonneg q1nn q2nn, mul_le_one₀ q1le q2nn q2le⟩

/-- C6: every entry of the confidence matrix the dual-softmax forward pass
produces lies in the interval `[0, 1]`. -/
theorem conf_matrix_entries_unit {N L S C : Nat} (feat_c0 : Fin N → Fin L → Fin C → ℝ)
    (feat_c1 : Fin N → Fin S → Fin C → ℝ) (temperature : ℝ)
    (mask_c0 : Option (Fin N → Fin L → Bool)) (mask_c1 : Option (Fin N → Fin S → Bool))
    (conf : Fin N → Fin L → Fin S → ℝ)
    (h : forwardConf feat_c0 feat_c1 temperature mask_c0 mask_c1 = .ok conf)
    (b : Fin N) (l : Fin L) (s : Fin S) :
    0 ≤ conf b l s ∧ conf b l s ≤ 1 := by
  cases mask_c0 with
  | some m0 =>
      cases mask_c1 with
      | some m1 =>
          simp only [forwardConf, Except.ok.injEq] at h
          rw [← h]
          exact dualSoftmax_mem_unit _ b l s
      | none => simp [forwardConf] at h
  | none =>
      simp only [forwardConf, Except.ok.injEq] at h
      rw [← h]
      exact dualSoftmax_mem_unit _ b l s

/-- Witness for C6 on the zero features with no masks. -/
theorem conf_matrix_entries_unit_witness :
    0 ≤ c6Conf 0 0 0 ∧ c6Conf 0 0 0 ≤ 1 :=
  conf_matrix_entries_unit c6Feat0 c6Feat1 1 none none c6Conf rfl 0 0 0

/-! ## Helper lemmas for the extraction step -/

theorem firstTrue_none (p : Nat → Bool) (n : Nat) (h : firstTrue p n = none) :
    ∀ j < n, p j = false := by
  induction n with
  | zero => intro j hj; exact absurd hj (Nat.not_lt_zero j)
  | succ m ih =>
      rw [firstTrue] at h
      cases hm : firstTrue p m with
      | some k0 => rw [hm] at h; cases h
      | none =>
          rw [hm] at h
          intro j hj
          rcases Nat.lt_succ_iff_lt_or_eq.1 hj with hj' | rfl
          · exact ih hm j hj'
          · by_cases hp : p j = true
            · rw [if_pos hp] at h; cases h
            · exact Bool.eq_false_iff.2 hp

theorem firstTrue_spec (p : Nat → Bool) (n k : Nat) (h : firstTrue p n = some k) :
    k < n ∧ p k = true ∧ ∀ j < k, p j = false := by
  induction n with
  | zero => simp [firstTrue] at h
  | succ m ih =>
      rw [firstTrue] at h
      cases hm : firstTrue p m with
      | some k0 =>
          rw [hm] at h
          cases h
          obtain ⟨hlt, hp, hmin⟩ := ih hm
          exact ⟨Nat.lt_succ_of_lt hlt, hp, hmin⟩
      | none =>
          rw [hm] at h
          by_cases hp : p m = true
          · rw [if_pos hp] at h
            cases h
            exact ⟨Nat.lt_succ_self k, hp, fun j hj => firstTrue_none p k hm j hj⟩
          · rw [if_neg hp] at h
            cases h

theorem firstTrue_min (p : Nat → Bool) (n k : Nat) (h : firstTrue p n = some k)
    (s : Nat) (hs : p s = true) : k ≤ s := by
  by_contra hlt
  push_neg at hlt
  have := (firstTrue_spec p n k h).2.2 s hlt
  rw [hs] at this
  cases this

theorem firstTrue_eq_none (p : Nat → Bool) (n : Nat) (h : ∀ j < n, p j = false) :
    firstTrue p n = none := by
  induction n with
  | zero => rfl
  | succ m ih =>
      rw [firstTrue, ih fun j hj => h j (Nat.lt_succ_of_lt hj)]
      rw [h m (Nat.lt_succ_self m)]
      rfl

theorem firstTrue_of_zero (p : Nat → Bool) (n : Nat) (hn : 0 < n) (hp : p 0 = true) :
    firstTrue p n = some 0 := by
  induction n with
  | zero => exact absurd hn (Nat.lt_irrefl 0)
  | succ m ih =>
      rw [firstTrue]
      cases Nat.eq_zero_or_pos m with
      | inl hm => subst hm; simp [firstTrue, hp]
      | inr hm => rw [ih hm]

theorem le_rmax_left (a b : ℚ) : a ≤ rmax a b := by
  unfold rmax
  split
  · assumption
  · exact le_refl a

theorem le_rmax_right (a b : ℚ) : b ≤ rmax a b := by
  unfold rmax
  split
  · exact le_refl b
  · exact le_of_not_le (by assumption)

theorem le_foldl_rmax (a : ℚ) (l : List ℚ) : a ≤ l.foldl rmax a := by
  induction l generalizing a with
  | nil => exact le_refl a
  | cons x t ih => exact le_trans (le_rmax_left a x) (ih (rmax a x))

theorem mem_le_foldl_rmax (x : ℚ) (l : List ℚ) :
    ∀ a : ℚ, x ∈ l → x ≤ l.foldl rmax a := by
  induction l with
  | nil => intro a hx; simp at hx
  | cons y t ih =>
      intro a hx
      rcases List.mem_cons.1 hx with rfl | hmem
      · exact le_trans (le_rmax_right a x) (le_foldl_rmax (rmax a x) t)
      · exact ih (rmax a y) hmem

theorem mem_le_qmax (x : ℚ) (l : List ℚ) (hx : x ∈ l) : x ≤ qmax l := by
  cases l with
  | nil => simp at hx
  | cons a t =>
      rcases List.mem_cons.1 hx with rfl | hm
      · exact le_foldl_rmax x t
      · exact mem_le_foldl_rmax x t a hm

theorem conf_le_rowMax (d : MatchData) (b l s : Nat) (hs : s < d.S) :
    d.conf_matrix b l s ≤ rowMax d b l := by
  apply mem_le_qmax
  exact List.mem_map.2 ⟨s, List.mem_range.2 hs, rfl⟩

theorem conf_le_colMax (d : MatchData) (b l s : Nat) (hl : l < d.L) :
    d.conf_matrix b l s ≤ colMax d b s := by
  apply mem_le_qmax
  exact List.mem_map.2 ⟨l, List.mem_range.2 hl, rfl⟩

theorem mutualMask_spec (thr : ℚ) (border_rm : Int) (d : MatchData) (b l s : Nat)
    (h : mutualMask thr border_rm d b l s = true) :
    thr < d.conf_matrix b l s ∧ d.conf_matrix b l s = rowMax d b l ∧
      d.conf_matrix b l s = colMax d b s := by
  unfold mutualMask at h
  simp only [Bool.and_eq_true, decide_eq_true_eq] at h
  obtain ⟨⟨hb, hr⟩, hc⟩ := h
  have hth := borderStep_le border_rm d (thresholdMask thr d) b l s hb
  unfold thresholdMask at hth
  rw [decide_eq_true_eq] at hth
  exact ⟨hth, hr, hc⟩

theorem mem_coarseMatches (thr : ℚ) (border_rm : Int) (d : MatchData)
    (b i j : Nat) (c : ℚ) (h : (b, i, j, c) ∈ coarseMatches thr border_rm d) :
    b < d.N ∧ i < d.L ∧
      firstTrue (fun s => finalMask thr border_rm d b i s) d.S = some j ∧
      c = d.conf_matrix b i j := by
  unfold coarseMatches at h
  rw [List.mem_flatMap] at h
  obtain ⟨b', hb', hmem⟩ := h
  unfold matchesFor at hmem
  rw [List.mem_filterMap] at hmem
  obtain ⟨l', hl', heq⟩ := hmem
  cases hft : firstTrue (fun s => finalMask thr border_rm d b' l' s) d.S with
  | none => rw [hft] at heq; cases heq
  | some j' =>
      rw [hft] at heq
      simp only [Option.map_some', Option.some.injEq, Prod.mk.injEq] at heq
      obtain ⟨rfl, rfl, rfl, rfl⟩ := heq
      exact ⟨List.mem_range.1 hb', List.mem_range.1 hl', hft, rfl⟩

/-! ## C2: extracted matches are above-threshold mutual maxima -/

/-- C2 counterexample: on a perfectly tied row the extracted match `(0,0,0)`
is not the *unique* maximum of its row — column `1` carries the same
confidence — refuting the claim as stated. -/
theorem unique_max_counterexample :
    (0, 0, 0, mkRat 1 2) ∈ coarseMatches (mkRat 1 5) 0 c2TieData ∧
      ¬(∀ s < c2TieData.S, s ≠ 0 →
          c2TieData.conf_matrix 0 0 s < c2TieData.conf_matrix 0 0 0) := by
  decide

/-- C2 (amended): every extracted match other than the synthetic
training-context fallback has confidence strictly above the threshold and
attains the maximum — not necessarily uniquely, ties being broken by the
smallest column index — along both its row and its column of the confidence
matrix. -/
theorem extracted_match_mutual_max (thr : ℚ) (border_rm : Int) (d : MatchData)
    (b i j : Nat) (c : ℚ)
    (hmem : (b, i, j, c) ∈ coarseMatches thr border_rm d)
    (hnf : ¬(d.dataset_name = true ∧ ckFlag thr border_rm d b = true)) :
    c = d.conf_matrix b i j ∧ thr < d.conf_matrix b i j ∧
      (∀ s < d.S, d.conf_matrix b i s ≤ d.conf_matrix b i j) ∧
      (∀ l < d.L, d.conf_matrix b l j ≤ d.conf_matrix b i j) := by
  obtain ⟨hbN, hiL, hft, hc⟩ := mem_coarseMatches thr border_rm d b i j c hmem
  have hmask : finalMask thr border_rm d b i j = true :=
    (firstTrue_spec _ _ _ hft).2.1
  unfold finalMask at hmask
  rw [Bool.or_eq_true] at hmask
  rcases hmask with hm | hfb
  · obtain ⟨hthr, hrow, hcol⟩ := mutualMask_spec thr border_rm d b i j hm
    refine ⟨hc, hthr, ?_, ?_⟩
    · intro s hs
      rw [hrow]
      exact conf_le_rowMax d b i s hs
    · intro l hl
      rw [hcol]
      exact conf_le_colMax d b l j hl
  · simp only [Bool.and_eq_true, decide_eq_true_eq] at hfb
    exact absurd ⟨hfb.1.1.1, hfb.1.1.2⟩ hnf

/-- Witness for C2 on a dominant concrete cell. -/
theorem extracted_match_mutual_max_witness :
    mkRat 9 10 = c2Data.conf_matrix 0 0 0 ∧
      mkRat 1 5 < c2Data.conf_matrix 0 0 0 ∧
      c2Data.conf_matrix 0 0 1 ≤ c2Data.conf_matrix 0 0 0 :=
  ⟨(extracted_match_mutual_max (mkRat 1 5) 0 c2Data 0 0 0 (mkRat 9 10)
      (by decide) (by decide)).1,
   (extracted_match_mutual_max (mkRat 1 5) 0 c2Data 0 0 0 (mkRat 9 10)
      (by decide) (by decide)).2.1,
   (extracted_match_mutual_max (mkRat 1 5) 0 c2Data 0 0 0 (mkRat 9 10)
      (by decide) (by decide)).2.2.1 1 (by decide)⟩

/-! ## C5: the training-context fallback match -/

theorem matchesFor_fst (thr : ℚ) (border_rm : Int) (d : MatchData) (b : Nat)
    (x : Nat × Nat × Nat × ℚ) (hx : x ∈ matchesFor thr border_rm d b) : x.1 = b := by
  unfold matchesFor at hx
  rw [List.mem_filterMap] at hx
  obtain ⟨l, hl, heq⟩ := hx
  cases hft : firstTrue (fun s => finalMask thr border_rm d b l s) d.S with
  | none => rw [hft] at heq; cases heq
  | some j =>
      rw [hft, Option.map_some'] at heq
      cases heq
      rfl

theorem filter_flatMap_eq_single (f : Nat → List (Nat × Nat × Nat × ℚ)) (b0 : Nat)
    (hf : ∀ b x, x ∈ f b → x.1 = b) :
    ∀ l : List Nat, l.Nodup →
      (l.flatMap f).filter (fun m => m.1 == b0) = if b0 ∈ l then f b0 else [] := by
  intro l
  induction l with
  | nil => intro _; simp
  | cons a t ih =>
      intro hnd
      rw [List.nodup_cons] at hnd
      rw [List.flatMap_cons, List.filter_append, ih hnd.2]
      by_cases hab : a = b0
      · subst hab
        have h1 : (f a).filter (fun m => m.1 == a) = f a :=
          List.filter_eq_self.2 fun x hx => by
            rw [hf a x hx]
            exact beq_self_eq_true a
        rw [h1, if_neg hnd.1, if_pos (List.mem_cons_self a t)]
        exact List.append_nil (f a)
      · have h1 : (f a).filter (fun m => m.1 == b0) = [] :=
          List.filter_eq_nil_iff.2 fun x hx hbeq => by
            rw [hf a x hx] at hbeq
            exact hab (beq_iff_eq.1 hbeq)
        rw [h1, List.nil_append]
        by_cases hb0 : b0 ∈ t
        · rw [if_pos hb0, if_pos (List.mem_cons_of_mem a hb0)]
        · rw [if_neg hb0, if_neg fun hmem => by
            rcases List.mem_cons.1 hmem with rfl | h
            · exact hab rfl
            · exact hb0 h]

theorem filter_coarseMatches (thr : ℚ) (border_rm : Int) (d : MatchData) (b0 : Nat)
    (hb : b0 < d.N) :
    (coarseMatches thr border_rm d).filter (fun m => m.1 == b0) =
      matchesFor thr border_rm d b0 := by
  unfold coarseMatches
  rw [filter_flatMap_eq_single (matchesFor thr border_rm d) b0
    (matchesFor_fst thr border_rm d) (List.range d.N) (List.nodup_range d.N)]
  rw [if_pos (List.mem_range.2 hb)]

theorem filterMap_range_single {α : Type} (g : Nat → Option α) (x : α) (n : Nat)
    (hn : 0 < n) (h0 : g 0 = some x) (hrest : ∀ l, l ≠ 0 → l < n → g l = none) :
    (List.range n).filterMap g = [x] := by
  induction n with
  | zero => exact absurd hn (Nat.lt_irrefl 0)
  | succ m ih =>
      rw [List.range_succ, List.filterMap_append]
      cases Nat.eq_zero_or_pos m with
      | inl hm =>
          subst hm
          simp [h0]
      | inr hm =>
          rw [ih hm fun l hl0 hlm => hrest l hl0 (Nat.lt_succ_of_lt hlm)]
          rw [show List.filterMap g [m] = [] by
            simp [hrest m (Nat.pos_iff_ne_zero.1 hm) (Nat.lt_succ_self m)]]
          rfl

theorem ckFlag_spec (thr : ℚ) (border_rm : Int) (d : MatchData) (b : Nat)
    (h : ckFlag thr border_rm d b = true) :
    ∀ l < d.L, ∀ s < d.S, mutualMask thr border_rm d b l s = false := by
  unfold ckFlag at h
  rw [List.all_eq_true] at h
  intro l hl s hs
  have hl' := h l (List.mem_range.2 hl)
  rw [List.all_eq_true] at hl'
  have hs' := hl' s (List.mem_range.2 hs)
  simpa using hs'

/-- C5: a training-context batch sample whose mutual-max mask is entirely
`False` yields exactly one synthetic fallback match, at cell pair `(0,0)`,
with confidence equal to the true matrix entry `conf_matrix[b₀, 0, 0]`; in an
inference-only context (no `dataset_name`) the same sample yields no match at
all. -/
theorem training_fallback (thr : ℚ) (border_rm : Int) (d : MatchData) (b0 : Nat)
    (hb : b0 < d.N) (hL : 0 < d.L) (hS : 0 < d.S)
    (hck : ckFlag thr border_rm d b0 = true) :
    (d.dataset_name = true →
      (coarseMatches thr border_rm d).filter (fun m => m.1 == b0) =
        [(b0, 0, 0, d.conf_matrix b0 0 0)]) ∧
    (d.dataset_name = false →
      (coarseMatches thr border_rm d).filter (fun m => m.1 == b0) = []) := by
  have hmut := ckFlag_spec thr border_rm d b0 hck
  rw [filter_coarseMatches thr border_rm d b0 hb]
  constructor
  · intro htrain
    unfold matchesFor
    apply filterMap_range_single _ _ _ hL
    · have hp0 : finalMask thr border_rm d b0 0 0 = true := by
        unfold finalMask
        rw [htrain, hck]
        simp
      rw [firstTrue_of_zero (fun s => finalMask thr border_rm d b0 0 s) d.S hS hp0]
      rw [Option.map_some']
    · intro l hl0 hlL
      rw [firstTrue_eq_none (fun s => finalMask thr border_rm d b0 l s) d.S
        fun s hs => by
          show finalMask thr border_rm d b0 l s = false
          unfold finalMask
          rw [hmut l hlL s hs]
          simp [hl0]]
      rfl
  · intro hinfer
    unfold matchesFor
    apply List.filterMap_eq_nil_iff.2
    intro l hl
    rw [firstTrue_eq_none (fun s => finalMask thr border_rm d b0 l s) d.S
      fun s hs => by
        show finalMask thr border_rm d b0 l s = false
        unfold finalMask
        rw [hinfer, hmut l (List.mem_range.1 hl) s hs]
        rfl]
    rfl

/-- Witness for C5: a concrete training sample below threshold yields the
single fallback match, and the identical inference sample yields none. -/
theorem training_fallback_witness :
    (coarseMatches (mkRat 1 2) 0 c5Data).filter (fun m => m.1 == 0) =
      [(0, 0, 0, c5Data.conf_matrix 0 0 0)] ∧
    (coarseMatches (mkRat 1 2) 0 c5DataInfer).filter (fun m => m.1 == 0) = [] :=
  ⟨(training_fallback (mkRat 1 2) 0 c5Data 0 (by decide) (by decide) (by decide)
      (by decide)).1 rfl,
   (training_fallback (mkRat 1 2) 0 c5DataInfer 0 (by decide) (by decide) (by decide)
      (by decide)).2 rfl⟩

/-! ## C8: coordinate rescaling -/

/-- C8: every extracted match record carries keypoints computed as
`col = index mod grid_width`, `row = index div grid_width`, multiplied by an
effective scale; both sides use the base ratio
`hw0_i[0] / hw0_c[0]` (image-0 original height over image-0 coarse height),
further multiplied by the sample's own per-sample scale factor when one is
supplied. -/
theorem match_coordinates (thr : ℚ) (border_rm : Int) (d : MatchData)
    (b i j : Nat) (c : ℚ) (pt0 pt1 : ℚ × ℚ)
    (hmem : (b, i, j, c, pt0, pt1) ∈ matchRecords thr border_rm d) :
    pt0 = (((i % d.w0c : Nat) : ℚ) * effScale0 d b,
           ((i / d.w0c : Nat) : ℚ) * effScale0 d b) ∧
    pt1 = (((j % d.w1c : Nat) : ℚ) * effScale1 d b,
           ((j / d.w1c : Nat) : ℚ) * effScale1 d b) ∧
    effScale0 d b = d.hw0i_h / (d.h0c : ℚ) *
      (match d.scale0 with | some sc => sc b | none => 1) ∧
    effScale1 d b = d.hw0i_h / (d.h0c : ℚ) *
      (match d.scale1 with | some sc => sc b | none => 1) := by
  unfold matchRecords at hmem
  rw [List.mem_map] at hmem
  obtain ⟨m, hm, heq⟩ := hmem
  simp only [Prod.mk.injEq] at heq
  obtain ⟨hb, hi, hj, hc, hp0, hp1⟩ := heq
  subst hb
  subst hi
  subst hj
  refine ⟨hp0.symm, hp1.symm, ?_, ?_⟩
  · cases hs0 : d.scale0 <;> simp [effScale0, hs0]
  · cases hs1 : d.scale1 <;> simp [effScale1, hs1]

/-- Witness for C8 on a 2×2 grid pair with a per-sample image-0 factor `3`. -/
theorem match_coordinates_witness :
    effScale0 c8Data 0 = c8Data.hw0i_h / (c8Data.h0c : ℚ) * mkRat 3 1 ∧
      effScale1 c8Data 0 = c8Data.hw0i_h / (c8Data.h0c : ℚ) * 1 := by
  have h := match_coordinates (mkRat 1 5) 0 c8Data 0 1 2 (mkRat 9 10)
    (((1 % 2 : Nat) : ℚ) * effScale0 c8Data 0, ((1 / 2 : Nat) : ℚ) * effScale0 c8Data 0)
    (((2 % 2 : Nat) : ℚ) * effScale1 c8Data 0, ((2 / 2 : Nat) : ℚ) * effScale1 c8Data 0)
    (List.mem_map.2 ⟨(0, 1, 2, mkRat 9 10), by decide, rfl⟩)
  exact ⟨h.2.2.1, h.2.2.2⟩

/-! ## C10: at most one partner per row, smallest column on ties -/

theorem matchesFor_map_key (thr : ℚ) (border_rm : Int) (d : MatchData) (b : Nat) :
    (matchesFor thr border_rm d b).map (fun m => (m.1, m.2.1)) =
      (List.range d.L).filterMap (fun l =>
        (firstTrue (fun s => finalMask thr border_rm d b l s) d.S).map fun _ => (b, l)) := by
  unfold matchesFor
  rw [List.map_filterMap]
  congr 1
  funext l
  cases hft : firstTrue (fun s => finalMask thr border_rm d b l s) d.S <;> simp [hft]

theorem matchesFor_key_nodup (thr : ℚ) (border_rm : Int) (d : MatchData) (b : Nat) :
    ((matchesFor thr border_rm d b).map fun m => (m.1, m.2.1)).Nodup := by
  rw [matchesFor_map_key]
  apply List.Nodup.filterMap ?_ (List.nodup_range d.L)
  intro a a' x hx hx'
  cases hft : firstTrue (fun s => finalMask thr border_rm d b a s) d.S with
  | none => rw [hft] at hx; exact absurd hx (by simp)
  | some k =>
      rw [hft, Option.map_some'] at hx
      cases hft' : firstTrue (fun s => finalMask thr border_rm d b a' s) d.S with
      | none => rw [hft'] at hx'; exact absurd hx' (by simp)
      | some k' =>
          rw [hft', Option.map_some'] at hx'
          rw [Option.mem_some_iff] at hx hx'
          have : (b, a) = (b, a') := hx.trans hx'.symm
          exact (Prod.mk.injEq b a b a').mp this |>.2

theorem coarseMatches_key_nodup (thr : ℚ) (border_rm : Int) (d : MatchData) :
    ((coarseMatches thr border_rm d).map fun m => (m.1, m.2.1)).Nodup := by
  unfold coarseMatches
  rw [List.map_flatMap]
  apply List.nodup_flatMap.2
  constructor
  · intro b _
    exact matchesFor_key_nodup thr border_rm d b
  · apply List.Pairwise.imp ?_ (List.nodup_range d.N)
    intro a b hab x hxa hxb
    rw [List.mem_map] at hxa hxb
    obtain ⟨ma, hma, hka⟩ := hxa
    obtain ⟨mb, hmb, hkb⟩ := hxb
    apply hab
    calc a = ma.1 := (matchesFor_fst thr border_rm d a ma hma).symm
      _ = x.1 := by rw [← hka]
      _ = mb.1 := by rw [← hkb]
      _ = b := matchesFor_fst thr border_rm d b mb hmb

/-- C10: in the output list every `(batch, image-0 index)` pair occurs at most
once, and the recorded partner column of each match is the smallest column of
its row that carries the `True` mask value. -/
theorem match_per_row_unique (thr : ℚ) (border_rm : Int) (d : MatchData) :
    ((coarseMatches thr border_rm d).map fun m => (m.1, m.2.1)).Nodup ∧
      ∀ b i j c, (b, i, j, c) ∈ coarseMatches thr border_rm d →
        finalMask thr border_rm d b i j = true ∧
        ∀ s, finalMask thr border_rm d b i s = true → j ≤ s := by
  constructor
  · exact coarseMatches_key_nodup thr border_rm d
  · intro b i j c hmem
    obtain ⟨-, -, hft, -⟩ := mem_coarseMatches thr border_rm d b i j c hmem
    exact ⟨(firstTrue_spec _ _ _ hft).2.1,
      fun s hs => firstTrue_min _ _ _ hft s hs⟩

/-- Witness for C10 on a tied row: the key projection is duplicate-free and
the recorded column `0` is no larger than the other `True` column `1`. -/
theorem match_per_row_unique_witness :
    ((coarseMatches (mkRat 1 5) 0 c10Data).map fun m => (m.1, m.2.1)).Nodup ∧
      (0 : Nat) ≤ 1 :=
  ⟨(match_per_row_unique (mkRat 1 5) 0 c10Data).1,
   ((match_per_row_unique (mkRat 1 5) 0 c10Data).2 0 0 0 (mkRat 1 2)
      (by decide)).2 1 (by decide)⟩

end CoarseMatch
